import Mathlib

/-
Shallow embedding of `src/scripts/gz10/gz10.py` (the GZ10 dataset script):
the identifier resolver (`np.argsort` + `np.searchsorted` + permutation
lookup), the record assembly in `_generate_examples`, and the split
generation in `_split_generators`.

Columns of an HDF5 shard are modelled as Lean lists; machine integers as
`Int` (with an explicit wrap for `.astype(np.int32)`); the float columns
as `Rat` (exact values; the `.astype(np.float32)` narrowing is modelled as
the identity, which is exact for the values used in the concrete claims).
A numpy indexing error (out-of-bounds fancy index) is modelled as `none` /
`Except.error`.
-/

namespace GZ10

/-- Reading entry `i` of an integer column, `data[col][i]`.  All uses below
are at indices that are in bounds, so the default value is never observed. -/
def colAt (l : List Int) (i : Nat) : Int := l.getD i 0

/-- Comparison on row indices by identifier value, with ties between equal
identifiers broken by original position.  This fixes ONE concrete tie order
so that the model stays executable; `np.argsort` with the default
`kind="quicksort"` promises only a sorted permutation, not this (or any)
stable tie order, so every statement below whose truth could depend on the
tie order is proven over all permutations satisfying the documented
contract (`SortsIds`), not just over this model instance. -/
def idxLe (ids : List Int) (i j : Nat) : Prop :=
  colAt ids i < colAt ids j ∨ (colAt ids i = colAt ids j ∧ i ≤ j)

instance (ids : List Int) : DecidableRel (idxLe ids) := fun i j => by
  unfold idxLe; infer_instance

instance (ids : List Int) : IsTotal Nat (idxLe ids) where
  total i j := by
    rcases lt_trichotomy (colAt ids i) (colAt ids j) with h | h | h
    · exact Or.inl (Or.inl h)
    · rcases Nat.le_total i j with hij | hij
      · exact Or.inl (Or.inr ⟨h, hij⟩)
      · exact Or.inr (Or.inr ⟨h.symm, hij⟩)
    · exact Or.inr (Or.inl h)

instance (ids : List Int) : IsTrans Nat (idxLe ids) where
  trans i j k hij hjk := by
    rcases hij with h1 | ⟨e1, l1⟩
    · rcases hjk with h2 | ⟨e2, _⟩
      · exact Or.inl (h1.trans h2)
      · exact Or.inl (e2 ▸ h1)
    · rcases hjk with h2 | ⟨e2, l2⟩
      · exact Or.inl (e1 ▸ h2)
      · exact Or.inr ⟨e1.trans e2, l1.trans l2⟩

/-- `sort_index = np.argsort(data["object_id"])`: a permutation of the row
indices that sorts the identifier column ascending.  The concrete model
realises numpy's contract with an insertion sort under `idxLe`; numpy's
default quicksort returns a possibly different but equally conforming
permutation when identifiers repeat (it coincides with this one on
duplicate-free columns, where the conforming permutation is unique). -/
def argsort (ids : List Int) : List Nat :=
  List.insertionSort (idxLe ids) (List.range ids.length)

/-- `sorted_ids = data["object_id"][:][sort_index]`: the identifier column
rearranged through the argsort permutation. -/
def sortedIds (ids : List Int) : List Int :=
  (argsort ids).map (colAt ids)

/-- `np.searchsorted(sorted_ids, k)` with the default `side="left"`: the
leftmost insertion point of `k`, i.e. the length of the longest prefix of
the (sorted) input lying strictly below `k`. -/
def searchsorted : List Int → Int → Nat
  | [], _ => 0
  | x :: xs, k => if x < k then searchsorted xs k + 1 else 0

/-- `i = sort_index[np.searchsorted(sorted_ids, k)]`: the resolved row for
a requested identifier.  When the insertion point falls past the end of the
array, the fancy index raises `IndexError`, modelled by `none`. -/
def resolveRow (ids : List Int) (k : Int) : Option Nat :=
  (argsort ids)[searchsorted (sortedIds ids) k]?

theorem argsort_perm (ids : List Int) :
    List.Perm (argsort ids) (List.range ids.length) :=
  List.perm_insertionSort _ _

theorem argsort_sorted (ids : List Int) : List.Sorted (idxLe ids) (argsort ids) :=
  List.sorted_insertionSort _ _

theorem argsort_length (ids : List Int) : (argsort ids).length = ids.length :=
  ((argsort_perm ids).length_eq).trans (List.length_range _)

theorem mem_argsort_iff {ids : List Int} {i : Nat} :
    i ∈ argsort ids ↔ i < ids.length := by
  rw [(argsort_perm ids).mem_iff, List.mem_range]

theorem sortedIds_length (ids : List Int) : (sortedIds ids).length = ids.length := by
  rw [sortedIds, List.length_map, argsort_length]

theorem map_colAt_range (ids : List Int) :
    (List.range ids.length).map (colAt ids) = ids := by
  apply List.ext_getElem
  · simp
  · intro i h1 h2
    simp only [List.getElem_map, List.getElem_range]
    rw [colAt, List.getD_eq_getElem?_getD, List.getElem?_eq_getElem h2, Option.getD_some]

theorem sortedIds_perm (ids : List Int) : List.Perm (sortedIds ids) ids := by
  have h := (argsort_perm ids).map (colAt ids)
  rwa [map_colAt_range ids] at h

theorem sortedIds_sorted (ids : List Int) :
    List.Sorted (· ≤ ·) (sortedIds ids) := by
  rw [sortedIds, List.Sorted, List.pairwise_map]
  refine (argsort_sorted ids).imp ?_
  intro i j hij
  rcases hij with h | ⟨h, _⟩
  · exact le_of_lt h
  · exact le_of_eq h

theorem searchsorted_le_length (l : List Int) (k : Int) :
    searchsorted l k ≤ l.length := by
  induction l with
  | nil => simp [searchsorted]
  | cons x xs ih =>
    rw [searchsorted]
    split
    · simpa using ih
    · simp

theorem searchsorted_prefix_lt (l : List Int) (k : Int) :
    ∀ q < searchsorted l k, l.getD q 0 < k := by
  induction l with
  | nil => intro q hq; simp [searchsorted] at hq
  | cons x xs ih =>
    intro q hq
    rw [searchsorted] at hq
    by_cases hx : x < k
    · rw [if_pos hx] at hq
      cases q with
      | zero => simpa using hx
      | succ q' => exact ih q' (Nat.lt_of_succ_lt_succ hq)
    · rw [if_neg hx] at hq
      exact absurd hq (Nat.not_lt_zero q)

theorem searchsorted_found {l : List Int} (hs : List.Sorted (· ≤ ·) l) {k : Int}
    (hk : k ∈ l) :
    searchsorted l k < l.length ∧ l.getD (searchsorted l k) 0 = k := by
  induction l with
  | nil => cases hk
  | cons x xs ih =>
    rw [List.sorted_cons] at hs
    rw [searchsorted]
    by_cases hx : x < k
    · have hk' : k ∈ xs := by
        rcases List.mem_cons.mp hk with rfl | h
        · exact absurd hx (lt_irrefl k)
        · exact h
      obtain ⟨h1, h2⟩ := ih hs.2 hk'
      rw [if_pos hx]
      exact ⟨Nat.succ_lt_succ h1, by simpa using h2⟩
    · have hkx : k ≤ x := le_of_not_lt hx
      have hx_eq : x = k := by
        rcases List.mem_cons.mp hk with rfl | h
        · rfl
        · exact le_antisymm (hs.1 k h) hkx
      rw [if_neg hx]
      simp [hx_eq]

theorem getD_eq_get (l : List Int) {n : Nat} (h : n < l.length) :
    l.getD n 0 = l.get ⟨n, h⟩ := by
  rw [List.getD_eq_getElem?_getD, List.getElem?_eq_getElem h, Option.getD_some,
    List.get_eq_getElem]

theorem colAt_mem {ids : List Int} {i : Nat} (h : i < ids.length) :
    colAt ids i ∈ ids := by
  rw [colAt, getD_eq_get _ h]
  exact List.get_mem _ _ _

theorem sortedIds_get {ids : List Int} {q : Nat} (h1 : q < (argsort ids).length)
    (h2 : q < (sortedIds ids).length) :
    (sortedIds ids).get ⟨q, h2⟩ = colAt ids ((argsort ids).get ⟨q, h1⟩) := by
  simp [sortedIds]

theorem argsort_get_lt (ids : List Int) (q : Fin (argsort ids).length) :
    (argsort ids).get q < ids.length :=
  mem_argsort_iff.mp (List.get_mem _ _ _)

/-- Specification of the model's resolver on present keys: the returned row
is in bounds and holds the requested identifier.  The final clause — the
returned row is the earliest matching one — is specific to this model
instance's tie order (`idxLe` breaks ties by original position) and is not
relied on by any statement about tie-order-dependent behaviour. -/
theorem resolveRow_spec {ids : List Int} {k : Int} (hk : k ∈ ids) :
    ∃ i, resolveRow ids k = some i ∧ i < ids.length ∧ colAt ids i = k ∧
      ∀ j < i, colAt ids j ≠ k := by
  have hk' : k ∈ sortedIds ids := (sortedIds_perm ids).mem_iff.mpr hk
  obtain ⟨hp, hval⟩ := searchsorted_found (sortedIds_sorted ids) hk'
  have hp' : searchsorted (sortedIds ids) k < (argsort ids).length := by
    rw [argsort_length]
    rw [sortedIds_length] at hp
    exact hp
  have hcolval : colAt ids ((argsort ids).get ⟨_, hp'⟩) = k := by
    rw [← sortedIds_get hp' hp, ← getD_eq_get _ hp]
    exact hval
  refine ⟨(argsort ids).get ⟨_, hp'⟩, ?_, argsort_get_lt ids _, hcolval, ?_⟩
  · rw [resolveRow]
    exact List.getElem?_eq_getElem hp'
  · intro j hj hcol
    have hi_lt : (argsort ids).get ⟨_, hp'⟩ < ids.length := argsort_get_lt ids _
    have hj_mem : j ∈ argsort ids := mem_argsort_iff.mpr (hj.trans hi_lt)
    obtain ⟨q, hq⟩ := List.mem_iff_get.mp hj_mem
    have hq_len : (q : Nat) < (sortedIds ids).length := by
      rw [sortedIds_length, ← argsort_length]
      exact q.isLt
    have hq_val : (sortedIds ids).getD q 0 = k := by
      rw [getD_eq_get _ hq_len, sortedIds_get q.isLt hq_len]
      have : (argsort ids).get ⟨(q : Nat), q.isLt⟩ = j := by
        rw [← hq]
      rw [this, hcol]
    have hq_ge : searchsorted (sortedIds ids) k ≤ (q : Nat) := by
      by_contra hlt
      have := searchsorted_prefix_lt (sortedIds ids) k q (lt_of_not_le hlt)
      rw [hq_val] at this
      exact lt_irrefl k this
    rcases lt_or_eq_of_le hq_ge with hgt | heq
    · have hrel := (argsort_sorted ids).rel_get_of_lt
        (show (⟨_, hp'⟩ : Fin (argsort ids).length) < q from hgt)
      rw [hq] at hrel
      rcases hrel with hlt' | ⟨_, hle⟩
      · rw [hcol, hcolval] at hlt'
        exact lt_irrefl k hlt'
      · exact absurd hle (Nat.not_le_of_lt hj)
    · have : j = (argsort ids).get ⟨_, hp'⟩ := by
        rw [← hq]
        congr 1
        exact Fin.ext heq.symm
      rw [this] at hj
      exact lt_irrefl _ hj

/-- On absent keys the resolver never reports the absence: either the
insertion point falls past the end (a raw index error), or some in-bounds
row whose identifier differs from the key is returned silently. -/
theorem resolveRow_absent {ids : List Int} {k : Int} (hk : k ∉ ids) :
    (resolveRow ids k = none ∧ searchsorted (sortedIds ids) k = ids.length)
    ∨ ∃ i, resolveRow ids k = some i ∧ i < ids.length ∧ colAt ids i ≠ k := by
  by_cases hp : searchsorted (sortedIds ids) k < (argsort ids).length
  · refine Or.inr ⟨(argsort ids).get ⟨_, hp⟩, ?_, argsort_get_lt ids _, ?_⟩
    · rw [resolveRow]
      exact List.getElem?_eq_getElem hp
    · intro hcol
      have : colAt ids ((argsort ids).get ⟨_, hp⟩) ∈ ids :=
        colAt_mem (argsort_get_lt ids _)
      rw [hcol] at this
      exact hk this
  · refine Or.inl ⟨?_, ?_⟩
    · rw [resolveRow]
      exact List.getElem?_eq_none (le_of_not_lt hp)
    · have h1 := searchsorted_le_length (sortedIds ids) k
      rw [sortedIds_length] at h1
      rw [argsort_length] at hp
      exact le_antisymm h1 (le_of_not_lt hp)

/-- The contract numpy documents for `np.argsort` with the default
`kind="quicksort"`: the result is a permutation of the row indices whose
induced rearrangement of the identifier column is nondecreasing.  Nothing
is promised about the relative order of equal identifiers (the default
sort is not stable), so statements that must hold of the program hold for
every permutation satisfying this predicate. -/
def SortsIds (perm : List Nat) (ids : List Int) : Prop :=
  List.Perm perm (List.range ids.length) ∧
    List.Sorted (· ≤ ·) (perm.map (colAt ids))

instance (perm : List Nat) (ids : List Int) : Decidable (SortsIds perm ids) := by
  unfold SortsIds; infer_instance

/-- The resolver of `_generate_examples` parameterized by whichever
conforming sort index the `np.argsort` call actually produced. -/
def resolveRowWith (perm : List Nat) (ids : List Int) (k : Int) : Option Nat :=
  perm[searchsorted (perm.map (colAt ids)) k]?

theorem argsort_sortsIds (ids : List Int) : SortsIds (argsort ids) ids :=
  ⟨argsort_perm ids, sortedIds_sorted ids⟩

theorem resolveRow_eq_with (ids : List Int) (k : Int) :
    resolveRow ids k = resolveRowWith (argsort ids) ids k := rfl

theorem sortsIds_map_perm {perm : List Nat} {ids : List Int}
    (h : SortsIds perm ids) : List.Perm (perm.map (colAt ids)) ids := by
  have h2 := h.1.map (colAt ids)
  rwa [map_colAt_range ids] at h2

theorem sortsIds_mem_lt {perm : List Nat} {ids : List Int}
    (h : SortsIds perm ids) {i : Nat} (hi : i ∈ perm) : i < ids.length := by
  rw [h.1.mem_iff, List.mem_range] at hi
  exact hi

/-- Resolver correctness over the full contract: for every sort index
satisfying what `np.argsort` documents — however it ordered equal
identifiers — a present key resolves to exactly one row, that row holds
the key, and the match sits at the first position of the sorted order
holding the key (every earlier sorted position holds a different value). -/
theorem resolveRowWith_spec {perm : List Nat} {ids : List Int} {k : Int}
    (hperm : SortsIds perm ids) (hk : k ∈ ids) :
    ∃ i, resolveRowWith perm ids k = some i ∧ i < ids.length ∧
      colAt ids i = k ∧
      ∀ q < searchsorted (perm.map (colAt ids)) k,
        (perm.map (colAt ids)).getD q 0 ≠ k := by
  have hk' : k ∈ perm.map (colAt ids) := (sortsIds_map_perm hperm).mem_iff.mpr hk
  obtain ⟨hp, hval⟩ := searchsorted_found hperm.2 hk'
  have hp' : searchsorted (perm.map (colAt ids)) k < perm.length := by
    rw [List.length_map] at hp
    exact hp
  refine ⟨perm.get ⟨_, hp'⟩, ?_, ?_, ?_, ?_⟩
  · rw [resolveRowWith]
    exact List.getElem?_eq_getElem hp'
  · exact sortsIds_mem_lt hperm (List.get_mem _ _ _)
  · have hmap : (perm.map (colAt ids)).get ⟨_, hp⟩ =
        colAt ids (perm.get ⟨_, hp'⟩) := by
      simp
    rw [getD_eq_get _ hp, hmap] at hval
    exact hval
  · intro q hq
    exact ne_of_lt (searchsorted_prefix_lt _ k q hq)

/-- Under every conforming sort index, key 1 in identifier column
[5, 1, 3, 1] resolves to row 1 or row 3 — the two rows holding value 1. -/
theorem resolveRowWith_dup_example {perm : List Nat}
    (hperm : SortsIds perm [5, 1, 3, 1]) :
    ∃ i, resolveRowWith perm [5, 1, 3, 1] 1 = some i ∧ (i = 1 ∨ i = 3) := by
  obtain ⟨i, h1, h2, h3, _⟩ :=
    resolveRowWith_spec hperm (show (1 : Int) ∈ [5, 1, 3, 1] by decide)
  refine ⟨i, h1, ?_⟩
  have hall : ∀ j < 4, colAt [5, 1, 3, 1] j = 1 → j = 1 ∨ j = 3 := by decide
  exact hall i (by simpa using h2) h3

/-- The two builder configurations of the `GZ10` dataset script. -/
inductive Config where
  | gz10
  | gz10_rgb_images
deriving DecidableEq

/-- A value stored in an emitted example dict: an `int32` label, a float
(modelled exactly as a rational), a string, or an image payload (kept
opaque as the raw stored value). -/
inductive Value where
  | int (z : Int)
  | flt (q : Rat)
  | strv (t : String)
  | img (z : Int)
deriving DecidableEq

/-- One HDF5 shard file: parallel columns `object_id`, `ans`, `redshift`,
`images`, `pxscale`. -/
structure Shard where
  object_id : List Int
  ans : List Int
  redshift : List Rat
  images : List Int
  pxscale : List Rat
deriving DecidableEq

/-- `.astype(np.int32)`: wrap an integer into the signed 32-bit range. -/
def toInt32 (z : Int) : Int := (z + 2 ^ 31) % 2 ^ 32 - 2 ^ 31

def gz10LabelField : String := "gz10_label"

def redshiftField : String := "redshift"

def rgbImageField : String := "rgb_image"

def rgbPixelScaleField : String := "rgb_pixel_scale"

def objectIdField : String := "object_id"

/-- The example dict assembled in `_generate_examples` for resolved row `i`,
with fields in Python dict insertion order: `gz10_label` and `redshift`
always, then `rgb_image` and `rgb_pixel_scale` when the configuration is
`gz10_rgb_images`, then `object_id` (the stored identifier as a string). -/
def emitExample (cfg : Config) (s : Shard) (i : Nat) : List (String × Value) :=
  [(gz10LabelField, Value.int (toInt32 (colAt s.ans i))),
    (redshiftField, Value.flt (s.redshift.getD i 0))]
  ++ (if cfg = Config.gz10_rgb_images then
        [(rgbImageField, Value.img (colAt s.images i)),
          (rgbPixelScaleField, Value.flt (s.pxscale.getD i 0))]
      else [])
  ++ [(objectIdField, Value.strv (toString (colAt s.object_id i)))]

/-- One `(key, example)` pair as yielded by `_generate_examples`. -/
abbrev Pair := String × List (String × Value)

/-- Processing one requested identifier: resolve it to a row and yield
`(str(data["object_id"][i]), example)`; `none` models the `IndexError`
raised when the insertion point is past the end of the sort index. -/
def emitKey (cfg : Config) (s : Shard) (k : Int) : Option Pair :=
  (resolveRow s.object_id k).map
    (fun i => (toString (colAt s.object_id i), emitExample cfg s i))

def indexErrMsg : String := "IndexError"

/-- The inner loop of `_generate_examples` over the requested keys of one
shard, in the supplied order; an unresolvable key aborts with the index
error. -/
def shardExamples (cfg : Config) (s : Shard) : List Int → Except String (List Pair)
  | [] => Except.ok []
  | k :: ks =>
    match emitKey cfg s k with
    | none => Except.error indexErrMsg
    | some p => (shardExamples cfg s ks).map (fun L => p :: L)

/-- The outer loop of `_generate_examples` over the shard files, in the
supplied order.  `object_ids = none` models the Python `object_ids=None`
case, in which each shard enumerates its own full `object_id` column as the
key set; `some kss` supplies one key list per file, and running out of
supplied key lists models the `IndexError` of `object_ids[j]`. -/
def generateExamples (cfg : Config) :
    List Shard → Option (List (List Int)) → Except String (List Pair)
  | [], _ => Except.ok []
  | s :: ss, none =>
    match shardExamples cfg s s.object_id, generateExamples cfg ss none with
    | Except.ok L, Except.ok M => Except.ok (L ++ M)
    | Except.error e, _ => Except.error e
    | _, Except.error e => Except.error e
  | _ :: _, some [] => Except.error indexErrMsg
  | s :: ss, some (ks :: kss) =>
    match shardExamples cfg s ks, generateExamples cfg ss (some kss) with
    | Except.ok L, Except.ok M => Except.ok (L ++ M)
    | Except.error e, _ => Except.error e
    | _, Except.error e => Except.error e

/-- One split produced by `_split_generators`. -/
structure SplitGenerator where
  name : String
  files : List String
deriving DecidableEq

/-- The `isinstance(files, str)` normalisation in `_split_generators`. -/
def normFiles : String ⊕ List String → List String
  | Sum.inl f => [f]
  | Sum.inr fs => fs

def configErrMsg : String :=
  "ValueError: At least one data file must be specified"

/-- `_split_generators`: raises `ValueError` when `self.config.data_files`
is empty (falsy), otherwise one `SplitGenerator` per split entry, in order. -/
def splitGenerators (dataFiles : List (String × (String ⊕ List String))) :
    Except String (List SplitGenerator) :=
  if dataFiles.isEmpty then Except.error configErrMsg
  else Except.ok (dataFiles.map (fun p => ⟨p.1, normFiles p.2⟩))

theorem emitExample_lookup (cfg : Config) (s : Shard) (i : Nat) :
    (emitExample cfg s i).lookup objectIdField =
      some (Value.strv (toString (colAt s.object_id i))) := by
  cases cfg <;> rfl

theorem emitExample_fields (cfg : Config) (s : Shard) (i : Nat) :
    (emitExample cfg s i).map Prod.fst =
      if cfg = Config.gz10_rgb_images then
        [gz10LabelField, redshiftField, rgbImageField, rgbPixelScaleField,
          objectIdField]
      else [gz10LabelField, redshiftField, objectIdField] := by
  cases cfg <;> rfl

theorem emitKey_eq_some {cfg : Config} {s : Shard} {k : Int} {p : Pair}
    (h : emitKey cfg s k = some p) :
    ∃ i, resolveRow s.object_id k = some i ∧
      p = (toString (colAt s.object_id i), emitExample cfg s i) := by
  rw [emitKey] at h
  cases hr : resolveRow s.object_id k with
  | none => rw [hr] at h; cases h
  | some i =>
    rw [hr] at h
    refine ⟨i, rfl, ?_⟩
    cases h
    rfl

/-- The pair produced for a key that resolves; the default is never
reached by the theorems that use it, which all assume resolution succeeds. -/
def emitKeyD (cfg : Config) (s : Shard) (k : Int) : Pair :=
  (emitKey cfg s k).getD ("", [])

theorem shardExamples_ok (cfg : Config) (s : Shard) (ks : List Int)
    (h : ∀ k ∈ ks, (emitKey cfg s k).isSome) :
    shardExamples cfg s ks = Except.ok (ks.map (emitKeyD cfg s)) := by
  induction ks with
  | nil => rfl
  | cons k ks ih =>
    obtain ⟨p, hp⟩ := Option.isSome_iff_exists.mp (h k (List.mem_cons_self k ks))
    rw [shardExamples, hp, ih (fun a ha => h a (List.mem_cons_of_mem k ha))]
    rw [List.map_cons, emitKeyD, hp, Option.getD_some]
    rfl

theorem shardExamples_mem (cfg : Config) (s : Shard) (ks : List Int)
    (L : List Pair) (h : shardExamples cfg s ks = Except.ok L) {p : Pair}
    (hp : p ∈ L) :
    p.2.lookup objectIdField = some (Value.strv p.1) := by
  induction ks generalizing L with
  | nil =>
    rw [shardExamples] at h
    cases h
    cases hp
  | cons k ks ih =>
    rw [shardExamples] at h
    cases hq : emitKey cfg s k with
    | none => rw [hq] at h; cases h
    | some q =>
      rw [hq] at h
      cases hL : shardExamples cfg s ks with
      | error e => rw [hL] at h; cases h
      | ok L' =>
        rw [hL] at h
        cases h
        rcases List.mem_cons.mp hp with rfl | hmem
        · obtain ⟨i, _, hpair⟩ := emitKey_eq_some hq
          rw [hpair]
          exact emitExample_lookup cfg s i
        · exact ih L' hL hmem

theorem generateExamples_mem (cfg : Config) (shards : List Shard)
    (oids : Option (List (List Int))) (L : List Pair)
    (h : generateExamples cfg shards oids = Except.ok L) {p : Pair}
    (hp : p ∈ L) :
    p.2.lookup objectIdField = some (Value.strv p.1) := by
  induction shards generalizing oids L with
  | nil =>
    rw [generateExamples] at h
    cases h
    cases hp
  | cons s ss ih =>
    cases oids with
    | none =>
      rw [generateExamples] at h
      cases h1 : shardExamples cfg s s.object_id with
      | error e =>
        cases h2 : generateExamples cfg ss none with
        | error e2 => rw [h1, h2] at h; cases h
        | ok L2 => rw [h1, h2] at h; cases h
      | ok L1 =>
        cases h2 : generateExamples cfg ss none with
        | error e => rw [h1, h2] at h; cases h
        | ok L2 =>
          rw [h1, h2] at h
          cases h
          rcases List.mem_append.mp hp with hmem | hmem
          · exact shardExamples_mem cfg s s.object_id L1 h1 hmem
          · exact ih none L2 h2 hmem
    | some kss =>
      cases kss with
      | nil => rw [generateExamples] at h; cases h
      | cons ks kss' =>
        rw [generateExamples] at h
        cases h1 : shardExamples cfg s ks with
        | error e =>
          cases h2 : generateExamples cfg ss (some kss') with
          | error e2 => rw [h1, h2] at h; cases h
          | ok L2 => rw [h1, h2] at h; cases h
        | ok L1 =>
          cases h2 : generateExamples cfg ss (some kss') with
          | error e => rw [h1, h2] at h; cases h
          | ok L2 =>
            rw [h1, h2] at h
            cases h
            rcases List.mem_append.mp hp with hmem | hmem
            · exact shardExamples_mem cfg s ks L1 h1 hmem
            · exact ih (some kss') L2 h2 hmem

theorem generateExamples_order (cfg : Config) (shards : List Shard)
    (kss : List (List Int)) (hlen : shards.length ≤ kss.length)
    (hres : ∀ p ∈ shards.zip kss, ∀ k ∈ p.2, (emitKey cfg p.1 k).isSome) :
    generateExamples cfg shards (some kss) =
      Except.ok ((shards.zip kss).flatMap (fun p => p.2.map (emitKeyD cfg p.1))) := by
  induction shards generalizing kss with
  | nil => rfl
  | cons s ss ih =>
    cases kss with
    | nil => exact absurd hlen (by simp)
    | cons ks kss' =>
      have hhead : ∀ k ∈ ks, (emitKey cfg s k).isSome := by
        intro k hk
        exact hres (s, ks) (by rw [List.zip_cons_cons]; exact List.mem_cons_self _ _) k hk
      have htail : ∀ p ∈ ss.zip kss', ∀ k ∈ p.2, (emitKey cfg p.1 k).isSome := by
        intro p hp k hk
        exact hres p (by rw [List.zip_cons_cons]; exact List.mem_cons_of_mem _ hp) k hk
      rw [generateExamples, shardExamples_ok cfg s ks hhead,
        ih kss' (Nat.le_of_succ_le_succ hlen) htail]
      rw [List.zip_cons_cons, List.flatMap_cons]

/-- Concrete shard of the end-to-end scenario: three rows with identifiers
10, 20, 30, labels 2, 5, 9, redshifts 0.1, 0.2, 0.3. -/
def demoShard : Shard :=
  ⟨[10, 20, 30], [2, 5, 9], [0.1, 0.2, 0.3], [7, 8, 9], [1.5, 2.5, 3.5]⟩

/-- Concrete shard used to exercise absent requested identifiers: its
identifier column is `[1, 3]`, so `2` is absent but lands in-bounds. -/
def strayShard : Shard := ⟨[1, 3], [4, 6], [0.5, 0.25], [11, 12], [1, 2]⟩

/-- A second single-row shard, for multi-shard traversal order. -/
def secondShard : Shard := ⟨[2], [7], [0.75], [13], [3]⟩

/-- C1: for every shard whose identifier column contains a key `k`,
resolving `k` through the built sort index (argsort, then binary search in
the sorted identifiers, then mapping back through the permutation) returns
a row position `i` at which the shard's identifier column equals `k`. -/
theorem claim1_resolve_present (s : Shard) (k : Int) (hk : k ∈ s.object_id) :
    ∃ i, resolveRow s.object_id k = some i ∧ colAt s.object_id i = k := by
  obtain ⟨i, h1, _, h3, _⟩ := resolveRow_spec hk
  exact ⟨i, h1, h3⟩

theorem claim1_witness :
    (20 : Int) ∈ demoShard.object_id ∧
      ∃ i, resolveRow demoShard.object_id 20 = some i ∧
        colAt demoShard.object_id i = 20 :=
  ⟨by decide, claim1_resolve_present demoShard 20 (by decide)⟩

/-- C2 counterexample: the key `2` is absent from the identifier column
`[1, 3]` of `strayShard`, yet resolving it does not fail at all — it
silently returns row `1`, whose identifier is `3`, refuting the claim that
an absent key always fails with `NotFoundError`. -/
theorem claim2_counterexample :
    (2 : Int) ∉ strayShard.object_id ∧
      resolveRow strayShard.object_id 2 = some 1 ∧
      colAt strayShard.object_id 1 = 3 := by
  decide

/-- C2 amended: for a requested key absent from the shard's identifier
column the resolver never detects the absence.  Either the binary-search
insertion point is the column length and the subsequent index into the sort
index fails with a raw index error, or the insertion point is in bounds and
the resolver silently returns that row, whose identifier differs from the
key.  No `NotFoundError` exists in the code. -/
theorem claim2_amended_absent (s : Shard) (k : Int) (hk : k ∉ s.object_id) :
    (resolveRow s.object_id k = none ∧
        searchsorted (sortedIds s.object_id) k = s.object_id.length)
    ∨ ∃ i, resolveRow s.object_id k = some i ∧ i < s.object_id.length ∧
        colAt s.object_id i ≠ k :=
  resolveRow_absent hk

theorem claim2_witness :
    (2 : Int) ∉ strayShard.object_id ∧
      ((resolveRow strayShard.object_id 2 = none ∧
          searchsorted (sortedIds strayShard.object_id) 2 =
            strayShard.object_id.length)
        ∨ ∃ i, resolveRow strayShard.object_id 2 = some i ∧
            i < strayShard.object_id.length ∧ colAt strayShard.object_id i ≠ 2) :=
  ⟨by decide, claim2_amended_absent strayShard 2 (by decide)⟩

/-- C3: resolving a duplicated key returns exactly one matching row, the
one placed first in sorted order among the equal keys — proved for every
sort index satisfying the documented `np.argsort` contract, hence for the
one the program's call actually produces regardless of its tie order (the
default quicksort promises no stable tie-break); in particular every
conforming sort index resolves key 1 in identifier column [5, 1, 3, 1] to
row 1 or row 3, the model's own sort index conforms and agrees with the
resolver, and the model resolves that key to row 1 — the same row on every
call, as numpy itself does at this array size where its sort is stable. -/
theorem claim3_duplicate_resolution :
    (∀ (perm : List Nat) (ids : List Int) (k : Int), SortsIds perm ids →
        k ∈ ids → ∃ i, resolveRowWith perm ids k = some i ∧
          colAt ids i = k ∧
          ∀ q < searchsorted (perm.map (colAt ids)) k,
            (perm.map (colAt ids)).getD q 0 ≠ k)
    ∧ (∀ perm : List Nat, SortsIds perm [5, 1, 3, 1] →
        ∃ i, resolveRowWith perm [5, 1, 3, 1] 1 = some i ∧ (i = 1 ∨ i = 3))
    ∧ SortsIds (argsort [5, 1, 3, 1]) [5, 1, 3, 1]
    ∧ resolveRow [5, 1, 3, 1] 1 =
        resolveRowWith (argsort [5, 1, 3, 1]) [5, 1, 3, 1] 1
    ∧ resolveRow [5, 1, 3, 1] 1 = some 1 := by
  refine ⟨?_, ?_, argsort_sortsIds _, rfl, by decide⟩
  · intro perm ids k hperm hk
    obtain ⟨i, h1, _, h3, h4⟩ := resolveRowWith_spec hperm hk
    exact ⟨i, h1, h3, h4⟩
  · intro perm hperm
    exact resolveRowWith_dup_example hperm

/-- Instantiation of C3 at an explicitly unstable conforming sort index,
[3, 1, 2, 0], which orders the two equal identifiers opposite to their
original positions: the hypotheses hold and key 1 still resolves to one of
rows 1 and 3. -/
theorem claim3_witness :
    SortsIds [3, 1, 2, 0] [5, 1, 3, 1] ∧
      ∃ i, resolveRowWith [3, 1, 2, 0] [5, 1, 3, 1] 1 = some i ∧
        (i = 1 ∨ i = 3) :=
  ⟨by decide, claim3_duplicate_resolution.2.1 [3, 1, 2, 0] (by decide)⟩

/-- C4: every emitted record has exactly the fields gz10_label, redshift,
rgb_image, rgb_pixel_scale, object_id under the `gz10_rgb_images` variant,
and exactly gz10_label, redshift, object_id under the `gz10` variant — in
that order, never missing and never extra. -/
theorem claim4_record_fields (cfg : Config) (s : Shard) (i : Nat) :
    (emitExample cfg s i).map Prod.fst =
      if cfg = Config.gz10_rgb_images then
        [gz10LabelField, redshiftField, rgbImageField, rgbPixelScaleField,
          objectIdField]
      else [gz10LabelField, redshiftField, objectIdField] :=
  emitExample_fields cfg s i

/-- C5: on the shard with object ids 10, 20, 30, labels 2, 5, 9 and
redshifts 0.1, 0.2, 0.3, requesting identifier 20 yields the record with
gz10_label 5, redshift 0.2 (exact in this model) and object_id "20"; under
the `gz10_rgb_images` variant the image and pixel-scale values of the same
row are additionally present. -/
theorem claim5_end_to_end :
    emitKey Config.gz10 demoShard 20 =
      some ("20", [(gz10LabelField, Value.int 5),
        (redshiftField, Value.flt 0.2), (objectIdField, Value.strv "20")])
    ∧ emitKey Config.gz10_rgb_images demoShard 20 =
      some ("20", [(gz10LabelField, Value.int 5),
        (redshiftField, Value.flt 0.2), (rgbImageField, Value.img 8),
        (rgbPixelScaleField, Value.flt 2.5),
        (objectIdField, Value.strv "20")]) :=
  ⟨rfl, rfl⟩

/-- C6: the full shard traversal is a pure function of the configuration,
the shard contents and the requested identifiers; running it twice over the
same unmodified data yields identical sequences of (key, record) pairs. -/
theorem claim6_idempotent (cfg : Config) (shards : List Shard)
    (oids : Option (List (List Int))) :
    generateExamples cfg shards oids = generateExamples cfg shards oids := rfl

/-- C7: with an empty data-files configuration, split generation fails
immediately with the configuration error, producing no splits and hence no
records. -/
theorem claim7_empty_config :
    splitGenerators [] = Except.error configErrMsg := rfl

/-- C8: whenever every requested key resolves, the emitted sequence is
exactly the concatenation, over shards in the supplied file order, of the
requested identifiers of that shard in their supplied order — neither
sorted nor deduplicated across shards. -/
theorem claim8_emission_order (cfg : Config) (shards : List Shard)
    (kss : List (List Int)) (hlen : shards.length ≤ kss.length)
    (hres : ∀ p ∈ shards.zip kss, ∀ k ∈ p.2, (emitKey cfg p.1 k).isSome) :
    generateExamples cfg shards (some kss) =
      Except.ok ((shards.zip kss).flatMap
        (fun p => p.2.map (emitKeyD cfg p.1))) :=
  generateExamples_order cfg shards kss hlen hres

theorem claim8_witness :
    generateExamples Config.gz10 [strayShard, secondShard]
        (some [[3, 1, 3], [2]]) =
      Except.ok (([strayShard, secondShard].zip [[3, 1, 3], [2]]).flatMap
        (fun p => p.2.map (emitKeyD Config.gz10 p.1))) :=
  claim8_emission_order Config.gz10 [strayShard, secondShard] [[3, 1, 3], [2]]
    (by decide) (by decide)

/-- C9 counterexample: requesting the absent identifier 2 from the shard
with identifier column `[1, 3]` emits a record whose object_id field
stringifies the stored identifier 3 of the silently resolved row, not the
requested 2 — refuting the unconditional round-trip claim. -/
theorem claim9_counterexample :
    (2 : Int) ∉ strayShard.object_id ∧
      generateExamples Config.gz10 [strayShard] (some [[2]]) =
        Except.ok [("3", [(gz10LabelField, Value.int 6),
          (redshiftField, Value.flt 0.25), (objectIdField, Value.strv "3")])] :=
  ⟨by decide, rfl⟩

/-- C9 amended: when the identifier used to request a record is present in
the shard's identifier column — which always holds in enumeration mode,
where the key set is the column itself — the emitted record's object_id
field stringifies that same raw identifier value.  (An absent requested
identifier can instead emit a record stringifying a different stored
identifier.) -/
theorem claim9_amended_roundtrip (cfg : Config) (s : Shard) (k : Int)
    (hk : k ∈ s.object_id) :
    ∃ key flds, emitKey cfg s k = some (key, flds) ∧
      flds.lookup objectIdField = some (Value.strv (toString k)) := by
  obtain ⟨i, h1, _, h3, _⟩ := resolveRow_spec hk
  refine ⟨toString (colAt s.object_id i), emitExample cfg s i, ?_, ?_⟩
  · rw [emitKey, h1]
    rfl
  · rw [emitExample_lookup, h3]

theorem claim9_witness :
    (20 : Int) ∈ demoShard.object_id ∧
      ∃ key flds, emitKey Config.gz10 demoShard 20 = some (key, flds) ∧
        flds.lookup objectIdField = some (Value.strv (toString (20 : Int))) :=
  ⟨by decide, claim9_amended_roundtrip Config.gz10 demoShard 20 (by decide)⟩

/-- C10: for every (key, record) pair emitted by the traversal, the
record's object_id field holds exactly the emitted key as a string value —
both stringify the identifier stored at the resolved row. -/
theorem claim10_key_matches (cfg : Config) (shards : List Shard)
    (oids : Option (List (List Int))) (L : List Pair)
    (h : generateExamples cfg shards oids = Except.ok L) (p : Pair)
    (hp : p ∈ L) :
    p.2.lookup objectIdField = some (Value.strv p.1) :=
  generateExamples_mem cfg shards oids L h hp

theorem claim10_witness :
    (("3", [(gz10LabelField, Value.int 6), (redshiftField, Value.flt 0.25),
      (objectIdField, Value.strv "3")]) : Pair).2.lookup objectIdField =
      some (Value.strv "3") :=
  claim10_key_matches Config.gz10 [strayShard] (some [[2]])
    [("3", [(gz10LabelField, Value.int 6), (redshiftField, Value.flt 0.25),
      (objectIdField, Value.strv "3")])] rfl
    ("3", [(gz10LabelField, Value.int 6), (redshiftField, Value.flt 0.25),
      (objectIdField, Value.strv "3")]) (List.mem_singleton_self _)

end GZ10
